import Mathlib

/-!
Verification development for the line-layout engine of the yapf-based
reformatter (`yapf/yapflib/reformatter.py`).

Strings are modelled as `List Char`.  Tokens are modelled by the
`FormatToken` structure below, carrying exactly the classification flags,
precomputed lengths and whitespace annotations that `reformatter.py`
reads.  The companion module `format_decision_state.py` is not part of
the sources under verification; the parts of it that `reformatter.py`
calls are modelled from the specification (see the doc comments marked
"Modelled from the spec").
-/

namespace Yapf

/-- Read-only style configuration, queried by `style.Get` in the source.
Only the two keys used by the functions under verification are modelled. -/
structure StyleConfig where
  columnLimit : Nat := 79
  indentWidth : Nat := 4
deriving DecidableEq

/-- A lexical token as seen by `reformatter.py`.  Fields mirror the
attributes of `format_token.FormatToken` that the reformatter reads:
`value`, `lineno`, the classification flags, the precomputed
`total_length` (rendered length to the end of the statement if unbroken),
the split hints, and the whitespace annotations.  `fmtWs` models
`formatted_whitespace_prefix` and `origWs` models `whitespace_prefix`.
The two penalty fields and the bracket flags model the per-edge cost and
stack effect of `AddTokenToState`; they stand for data the decision state
derives from the style weights (the weights themselves are out of scope). -/
structure FormatToken where
  value : List Char := []
  lineno : Nat := 0
  is_comment : Bool := false
  is_pylint_comment : Bool := false
  is_pytype_comment : Bool := false
  is_continuation : Bool := false
  is_pseudo_paren : Bool := false
  must_split : Bool := false
  can_split : Bool := true
  total_length : Nat := 0
  fmtWs : List Char := []
  origWs : List Char := []
  penaltyNewline : Nat := 0
  penaltyNoNewline : Nat := 0
  opens_bracket : Bool := false
  closes_bracket : Bool := false
deriving DecidableEq

/-- A logical (unwrapped) line: the ordered token sequence of one
statement, its indentation depth, and the "disable formatting" flag. -/
structure UwLine where
  tokens : List FormatToken
  depth : Nat := 0
  disable : Bool := false
deriving DecidableEq

/-- Source `_LineHasContinuationMarkers` (reformatter.py:240-242): true if
any token of the line is a continuation marker. -/
def LineHasContinuationMarkers (L : UwLine) : Bool :=
  L.tokens.any fun t => t.is_continuation

/-- Source `_CanPlaceOnSingleLine` (reformatter.py:245-263).  `last` is
`uwline.last`; when it is a pylint/pytype suppressing comment the code
steps to `last.previous_token` (the second-to-last token, modelled as
`tokens.dropLast.getLast?`) and uses the Python slice `tokens[:-2]`
instead of `tokens[:-1]` for the comment scan. -/
def CanPlaceOnSingleLine (cfg : StyleConfig) (L : UwLine) : Bool :=
  let indentAmt := cfg.indentWidth * L.depth
  match L.tokens.getLast? with
  | none => true
  | some last0 =>
    if last0.is_pylint_comment || last0.is_pytype_comment then
      match L.tokens.dropLast.getLast? with
      | none => true
      | some last =>
        decide (last.total_length + indentAmt ≤ cfg.columnLimit) &&
          !(L.tokens.dropLast.dropLast.any fun t => t.is_comment)
    else
      decide (last0.total_length + indentAmt ≤ cfg.columnLimit) &&
        !(L.tokens.dropLast.any fun t => t.is_comment)

/-- The token sequence that remains once a trailing pylint/pytype
suppressing-comment token is excluded, as described by the specification
of `CanPlaceOnSingleLine` ("after excluding a trailing suppressing-comment
token"). -/
def remainingAfterSuppressor (toks : List FormatToken) : List FormatToken :=
  match toks.getLast? with
  | none => toks
  | some t =>
    if t.is_pylint_comment || t.is_pytype_comment then toks.dropLast else toks

/-- Specification-side reading of the fast-path test, stated in the
spec's vocabulary: after excluding a trailing suppressing comment, the
last remaining token's total unbroken length plus the line's indent
(`INDENT_WIDTH * depth`) fits in the column limit, and no earlier token
forces a split.  In this function the split-forcing earlier tokens are
the comments: a comment in the middle of a line forces the remainder
onto a new line. -/
def CanPlaceOnSingleLineSpec (cfg : StyleConfig) (L : UwLine) : Prop :=
  match (remainingAfterSuppressor L.tokens).getLast? with
  | none => True
  | some last =>
      last.total_length + cfg.indentWidth * L.depth ≤ cfg.columnLimit ∧
        ∀ t ∈ (remainingAfterSuppressor L.tokens).dropLast, t.is_comment = false

/-- C6: `_CanPlaceOnSingleLine` returns true exactly when, after excluding
a trailing pylint/pytype suppressing-comment token, the last remaining
token's total unbroken length plus the line's indent (INDENT_WIDTH times
depth) is at most COLUMN_LIMIT and no earlier token forces a split
(i.e. no earlier token is a comment). -/
theorem canPlaceOnSingleLine_iff_spec (cfg : StyleConfig) (L : UwLine)
    (hne : remainingAfterSuppressor L.tokens ≠ []) :
    CanPlaceOnSingleLine cfg L = true ↔ CanPlaceOnSingleLineSpec cfg L := by
  rcases hlast : L.tokens.getLast? with _ | last0
  · rw [List.getLast?_eq_none_iff] at hlast
    exact absurd (by simp [remainingAfterSuppressor, hlast]) hne
  · by_cases hsup : (last0.is_pylint_comment || last0.is_pytype_comment) = true
    · simp only [remainingAfterSuppressor, hlast, hsup, if_true] at hne ⊢
      rcases hprev : L.tokens.dropLast.getLast? with _ | last
      · rw [List.getLast?_eq_none_iff] at hprev
        exact absurd hprev hne
      · simp [CanPlaceOnSingleLine, CanPlaceOnSingleLineSpec, remainingAfterSuppressor,
          hlast, hsup, hprev, List.any_eq_false]
    · have hsup' : (last0.is_pylint_comment || last0.is_pytype_comment) = false := by
        simpa using hsup
      simp [CanPlaceOnSingleLine, CanPlaceOnSingleLineSpec, remainingAfterSuppressor,
        hlast, hsup', List.any_eq_false]

/-- Witness for C6 at a concrete two-token line that fits the limit. -/
theorem canPlaceOnSingleLine_iff_spec_witness :
    remainingAfterSuppressor
        (UwLine.mk [{ value := "x".toList, total_length := 5 },
                    { value := "1".toList, total_length := 1 }] 1 false).tokens ≠ [] ∧
      (CanPlaceOnSingleLine { columnLimit := 10, indentWidth := 4 }
          (UwLine.mk [{ value := "x".toList, total_length := 5 },
                      { value := "1".toList, total_length := 1 }] 1 false) = true ↔
        CanPlaceOnSingleLineSpec { columnLimit := 10, indentWidth := 4 }
          (UwLine.mk [{ value := "x".toList, total_length := 5 },
                      { value := "1".toList, total_length := 1 }] 1 false)) :=
  ⟨by decide, canPlaceOnSingleLine_iff_spec _ _ (by decide)⟩

/-- C10: a line whose only token is a pylint/pytype suppressing comment is
always placeable on a single line: the code steps past the suppressor,
finds no previous token, and returns true before any length check. -/
theorem canPlaceOnSingleLine_lone_suppressor (cfg : StyleConfig) (depth : Nat)
    (t : FormatToken) (h : t.is_pylint_comment = true ∨ t.is_pytype_comment = true) :
    CanPlaceOnSingleLine cfg (UwLine.mk [t] depth false) = true := by
  unfold CanPlaceOnSingleLine
  rcases h with h | h <;> simp [h]

/-- Witness for C10: a gigantic lone pylint comment on a tiny column limit. -/
theorem canPlaceOnSingleLine_lone_suppressor_witness :
    CanPlaceOnSingleLine { columnLimit := 1, indentWidth := 4 }
      (UwLine.mk [{ value := "# pylint: disable=line-too-long".toList,
                    is_comment := true, is_pylint_comment := true,
                    total_length := 1000 }] 3 false) = true :=
  canPlaceOnSingleLine_lone_suppressor _ 3 _ (Or.inl rfl)

/-- Modelled from the spec: `format_decision_state.FormatDecisionState`,
which is not among the sources under verification.  Per §3/§4.1 of the
specification it is a mutable snapshot holding a cursor into the line's
tokens, the current column, an indentation/bracket-depth stack, the
trailing suppressing-comment flag, and (set by `_AnalyzeSolutionSpace`,
reformatter.py:485) the `ignore_stack_for_comparison` flag. -/
structure FormatDecisionState where
  tokens : List FormatToken
  nextIdx : Nat
  column : Nat
  stack : List Nat
  trailingComment : Bool
  ignoreStackForComparison : Bool
deriving DecidableEq

/-- The `next_token` attribute: the token under the cursor, `none` once
every token of the line has been placed (the terminal state). -/
def FormatDecisionState.nextToken (st : FormatDecisionState) : Option FormatToken :=
  st.tokens[st.nextIdx]?

/-- Modelled from the spec: `MustSplit()` — the next token's syntax hints
force a break.  A pure function of the state; no side effects. -/
def FormatDecisionState.MustSplit (st : FormatDecisionState) : Bool :=
  match st.nextToken with
  | some t => t.must_split
  | none => false

/-- Modelled from the spec: `CanSplit(mustSplit)` — false when the next
token is marked unsplittable, guarding against invalid branches. -/
def FormatDecisionState.CanSplit (st : FormatDecisionState) (_mustSplit : Bool) : Bool :=
  match st.nextToken with
  | some t => t.can_split
  | none => false

/-- Modelled from the spec: `AddTokenToState(newline, dryRun, mustSplit)`
commits placement of the next token either on the current line or after a
new line plus indent, advances the cursor, updates the bracket stack, and
returns the incremental penalty contribution.  The per-edge penalties
(style weight plus overflow) are carried as precomputed token data.  The
`dryRun` flag of the source only controls whether Token whitespace is
mutated; whitespace mutation is not part of this model, so the flag has
no observable effect here. -/
def FormatDecisionState.AddTokenToState (st : FormatDecisionState)
    (newline : Bool) (_dryRun : Bool) (_mustSplit : Bool) :
    Nat × FormatDecisionState :=
  match st.nextToken with
  | none => (0, st)
  | some t =>
    let col := if newline then st.stack.headD 0 + t.value.length
               else st.column + t.value.length
    let stack1 := if t.opens_bracket then col :: st.stack
                  else if t.closes_bracket then st.stack.tail
                  else st.stack
    let pen := if newline then t.penaltyNewline else t.penaltyNoNewline
    (pen,
      { st with nextIdx := st.nextIdx + 1, column := col, stack := stack1,
                trailingComment := t.is_pylint_comment || t.is_pytype_comment })

/-- Modelled from the spec: `MoveStateToNextToken()` advances the cursor
with no layout decision (used for the line's implicit first token). -/
def FormatDecisionState.MoveStateToNextToken (st : FormatDecisionState) :
    FormatDecisionState :=
  let w := match st.nextToken with
           | some t => t.value.length
           | none => 0
  { st with nextIdx := st.nextIdx + 1, column := st.column + w }

/-- Modelled from the spec: the deduplication equality of
`FormatDecisionState` (§4.1: cursor position, column, stacks, trailing
suppressing-comment flag; penalty and parent excluded).  The relaxation
flag set by `_AnalyzeSolutionSpace` is named `ignore_stack_for_comparison`
in the source (reformatter.py:485): when it is set on either side the
indent/bracket-stack component is skipped, while the cursor, column and
trailing-flag components are still compared. -/
def stateEq (a b : FormatDecisionState) : Bool :=
  a.nextIdx == b.nextIdx && a.column == b.column &&
    a.trailingComment == b.trailingComment &&
    (a.ignoreStackForComparison || b.ignoreStackForComparison ||
      a.stack == b.stack)

/-- The deduplication key as claim C4 describes its relaxed form: the
trailing-flag component is dropped and the remaining components (cursor
position, column, indent/bracket stack) are still compared. -/
def stateEqClaimRelaxed (a b : FormatDecisionState) : Bool :=
  a.nextIdx == b.nextIdx && a.column == b.column && a.stack == b.stack

/-- Source reformatter.py:484-485: once `count > 10000`, the popped
node's state has `ignore_stack_for_comparison` set before the visited-set
test. -/
def relaxIfOverThreshold (count : Nat) (st : FormatDecisionState) :
    FormatDecisionState :=
  if 10000 < count then { st with ignoreStackForComparison := true } else st

/-- Source `_StateNode` (reformatter.py:417-433): an edge of the solution
space; `state` after the decision, whether the edge inserted a newline,
and the parent node.  The source stores the parent as `None` for the
initial node and as another `_StateNode` otherwise; the two constructors
encode those two cases. -/
inductive StateNode where
  | root (state : FormatDecisionState) (newline : Bool)
  | child (state : FormatDecisionState) (newline : Bool) (previous : StateNode)
deriving DecidableEq

/-- The state stored in a search node. -/
def StateNode.state : StateNode → FormatDecisionState
  | .root s _ => s
  | .child s _ _ => s

/-- The newline flag of the edge leading to this node. -/
def StateNode.newline : StateNode → Bool
  | .root _ n => n
  | .child _ n _ => n

/-- The parent pointer of a search node, `none` for the initial node. -/
def StateNode.previous : StateNode → Option StateNode
  | .root _ _ => none
  | .child _ _ p => some p

/-- Replace the state of a node in place, keeping edge and parent; this
models the in-place mutation `node.state.ignore_stack_for_comparison =
True` performed by the loop. -/
def StateNode.withState (n : StateNode) (s : FormatDecisionState) : StateNode :=
  match n with
  | .root _ nl => .root s nl
  | .child _ nl p => .child s nl p

/-- Source `_QueueItem`/`_OrderedPenalty` (reformatter.py:440-449): an
entry of the prioritized frontier, a (penalty, insertion-order, node)
item.  `count` is the insertion counter. -/
structure QueueItem where
  penalty : Nat
  count : Nat
  node : StateNode
deriving DecidableEq

/-- The ordering key of a frontier entry: cumulative penalty first, then
insertion order, exactly the `_OrderedPenalty` namedtuple comparison. -/
def QueueItem.key (it : QueueItem) : Nat × Nat :=
  (it.penalty, it.count)

/-- Lexicographic strict comparison on (penalty, count), the order under
which `heapq` pops the frontier (namedtuples compare lexicographically). -/
def keyLtb (a b : Nat × Nat) : Bool :=
  decide (a.1 < b.1) || (decide (a.1 = b.1) && decide (a.2 < b.2))

/-- The pop operation of the priority queue: remove the entry that is
minimal under the (penalty, count) order, keeping the rest.  This models
what `heapq.heappop` returns; the heap's internal array layout is
abstracted away (claim C2 shows the result does not depend on it). -/
def popMin : List QueueItem → Option (QueueItem × List QueueItem)
  | [] => none
  | x :: xs =>
    match popMin xs with
    | none => some (x, [])
    | some (m, rest) =>
      if keyLtb m.key x.key then some (m, x :: rest) else some (x, xs)

/-- Source `_AddNextStateToQueue` (reformatter.py:505-534): validate the
candidate edge with `CanSplit`/`MustSplit`; when valid, score it with a
dry-run `AddTokenToState` and push it keyed by (penalty, count). -/
def AddNextStateToQueue (penalty : Nat) (previousNode : StateNode)
    (newline : Bool) (count : Nat) (pQueue : List QueueItem) :
    Nat × List QueueItem :=
  let mustSplit := previousNode.state.MustSplit
  if newline && !(previousNode.state.CanSplit mustSplit) then (count, pQueue)
  else if !newline && mustSplit then (count, pQueue)
  else
    let step := previousNode.state.AddTokenToState newline true mustSplit
    let node := StateNode.child step.2 newline previousNode
    (count + 1, pQueue ++ [⟨penalty + step.1, count, node⟩])

/-- The body of `_AnalyzeSolutionSpace`'s `while p_queue:` loop
(reformatter.py:476-495), driven by explicit fuel: peek the minimal
entry; if its state is terminal, stop successfully with that node;
otherwise pop it, relax its deduplication key once `count > 10000`, skip
it if an equivalent state was already expanded, and otherwise enqueue the
"no newline" and then the "newline" successor. -/
def AnalyzeLoop : Nat → Nat → List FormatDecisionState → List QueueItem →
    Option StateNode
  | 0, _, _, _ => none
  | fuel + 1, count, seen, pQueue =>
    match popMin pQueue with
    | none => none
    | some (item, rest) =>
      if item.node.state.nextToken.isNone then some item.node
      else
        let st := relaxIfOverThreshold count item.node.state
        if seen.any fun s => stateEq s st then
          AnalyzeLoop fuel count seen rest
        else
          let node := item.node.withState st
          let r1 := AddNextStateToQueue item.penalty node false count rest
          let r2 := AddNextStateToQueue item.penalty node true r1.1 r1.2
          AnalyzeLoop fuel r2.1 (st :: seen) r2.2

/-- Fuel bound for the fuel-driven loop: the solution-space tree of a
line explored without deduplication has fewer than `2 ^ (n + 2)` nodes. -/
def analyzeFuel (st : FormatDecisionState) : Nat :=
  2 ^ (st.tokens.length + 2)

/-- Source `_AnalyzeSolutionSpace` (reformatter.py:452-502): prioritized
Dijkstra-style search from the initial state; returns true when a
terminal state is reached, false when the frontier empties first (the
caller then falls back to verbatim emission). -/
def AnalyzeSolutionSpace (initialState : FormatDecisionState) : Bool :=
  let start := StateNode.root initialState false
  (AnalyzeLoop (analyzeFuel initialState) 1 [] [⟨0, 0, start⟩]).isSome

theorem keyLtb_irrefl (a : Nat × Nat) : keyLtb a a = false := by
  simp [keyLtb]

theorem keyLtb_asymm {a b : Nat × Nat} (h : keyLtb a b = true) :
    keyLtb b a = false := by
  simp only [keyLtb, Bool.or_eq_true, Bool.and_eq_true, decide_eq_true_eq] at h
  simp only [keyLtb, Bool.or_eq_false_iff, Bool.and_eq_false_iff,
    decide_eq_false_iff_not]
  omega

theorem keyLtb_total {a b : Nat × Nat} (h : a ≠ b) :
    keyLtb a b = true ∨ keyLtb b a = true := by
  rcases a with ⟨a1, a2⟩
  rcases b with ⟨b1, b2⟩
  simp only [ne_eq, Prod.mk.injEq, not_and] at h
  simp only [keyLtb, Bool.or_eq_true, Bool.and_eq_true, decide_eq_true_eq]
  by_cases h1 : a1 = b1
  · subst h1
    have h2 : a2 ≠ b2 := fun hh => h rfl hh
    omega
  · omega

theorem keyLtb_false_trans {a b c : Nat × Nat} (hab : keyLtb a b = false)
    (hbc : keyLtb b c = false) : keyLtb a c = false := by
  simp only [keyLtb, Bool.or_eq_false_iff, Bool.and_eq_false_iff,
    decide_eq_false_iff_not] at *
  omega

theorem popMin_eq_none {q : List QueueItem} : popMin q = none ↔ q = [] := by
  cases q with
  | nil => simp [popMin]
  | cons x xs =>
    simp only [popMin]
    rcases h : popMin xs with _ | p
    · simp
    · rcases p with ⟨m, rest⟩
      by_cases hlt : keyLtb m.key x.key = true
      · simp [hlt]
      · simp [hlt]

theorem popMin_mem : ∀ {q : List QueueItem} {it : QueueItem}
    {rest : List QueueItem}, popMin q = some (it, rest) → it ∈ q := by
  intro q
  induction q with
  | nil => intro it rest h; simp [popMin] at h
  | cons x xs ih =>
    intro it rest h
    simp only [popMin] at h
    split at h
    · simp only [Option.some.injEq, Prod.mk.injEq] at h
      simp [h.1]
    · rename_i m r hm
      split at h
      · simp only [Option.some.injEq, Prod.mk.injEq] at h
        exact h.1 ▸ List.mem_cons_of_mem x (ih hm)
      · simp only [Option.some.injEq, Prod.mk.injEq] at h
        simp [h.1]

theorem popMin_min : ∀ {q : List QueueItem} {it : QueueItem}
    {rest : List QueueItem}, popMin q = some (it, rest) →
    ∀ j ∈ q, keyLtb j.key it.key = false := by
  intro q
  induction q with
  | nil => intro it rest h; simp [popMin] at h
  | cons x xs ih =>
    intro it rest h j hj
    simp only [popMin] at h
    split at h
    · rename_i hm
      simp only [Option.some.injEq, Prod.mk.injEq] at h
      have hxs : xs = [] := popMin_eq_none.mp hm
      rcases List.mem_cons.mp hj with hj | hj
      · subst hj; rw [← h.1]; exact keyLtb_irrefl _
      · rw [hxs] at hj; simp at hj
    · rename_i m r hm
      split at h
      · rename_i hlt
        simp only [Option.some.injEq, Prod.mk.injEq] at h
        rcases List.mem_cons.mp hj with hj | hj
        · subst hj; rw [← h.1]; exact keyLtb_asymm hlt
        · rw [← h.1]; exact ih hm j hj
      · rename_i hlt
        have hlt' : keyLtb m.key x.key = false := by simpa using hlt
        simp only [Option.some.injEq, Prod.mk.injEq] at h
        rcases List.mem_cons.mp hj with hj | hj
        · subst hj; rw [← h.1]; exact keyLtb_irrefl _
        · rw [← h.1]
          exact keyLtb_false_trans (ih hm j hj) hlt'

/-- Pushing through `_AddNextStateToQueue` keeps every insertion counter
in the frontier below the running counter and keeps the (penalty, count)
keys pairwise distinct: each pushed entry carries the current counter,
which is strictly larger than every counter already enqueued. -/
theorem addNextStateToQueue_fresh_counts (penalty : Nat) (node : StateNode)
    (newline : Bool) (count : Nat) (pQueue : List QueueItem)
    (hlt : ∀ j ∈ pQueue, j.count < count)
    (hdist : pQueue.Pairwise fun a b => a.key ≠ b.key) :
    (∀ j ∈ (AddNextStateToQueue penalty node newline count pQueue).2,
        j.count < (AddNextStateToQueue penalty node newline count pQueue).1) ∧
      (AddNextStateToQueue penalty node newline count pQueue).2.Pairwise
        (fun a b => a.key ≠ b.key) := by
  unfold AddNextStateToQueue
  by_cases h1 : (newline && !(node.state.CanSplit node.state.MustSplit)) = true
  · simpa [h1] using ⟨hlt, hdist⟩
  · by_cases h2 : (!newline && node.state.MustSplit) = true
    · simpa [h1, h2] using ⟨hlt, hdist⟩
    · have h1' : (newline && !(node.state.CanSplit node.state.MustSplit)) = false := by
        simpa using h1
      have h2' : (!newline && node.state.MustSplit) = false := by
        simpa using h2
      simp only [h1', h2', Bool.false_eq_true, if_false]
      constructor
      · intro j hj
        rcases List.mem_append.mp hj with hj | hj
        · exact Nat.lt_succ_of_lt (hlt j hj)
        · simp only [List.mem_singleton] at hj
          subst hj
          exact Nat.lt_succ_self _
      · rw [List.pairwise_append]
        refine ⟨hdist, List.pairwise_singleton _ _, ?_⟩
        intro a ha b hb
        simp only [List.mem_singleton] at hb
        subst hb
        have := hlt a ha
        simp only [QueueItem.key, ne_eq, Prod.mk.injEq, not_and]
        intro _
        omega

/-- C2: the frontier is deterministic and tie-break-stable.  Every entry
is a (penalty, insertion-order, node) `QueueItem` popped in the
lexicographic (penalty, count) order: whenever a pop occurs from a
frontier whose keys are pairwise distinct (which
`addNextStateToQueue_fresh_counts` shows the search maintains), the
popped entry's key is strictly below every other entry's key, among
entries of equal penalty the earlier-inserted one is popped first, and
the same entry is popped from any permutation of the frontier — so the
expansion sequence of `_AnalyzeSolutionSpace` does not depend on the
heap's internal layout, and two runs on the same initial state expand the
same nodes and produce the same result. -/
theorem frontier_pop_deterministic_tiebreak
    (q q' : List QueueItem) (it : QueueItem) (rest : List QueueItem)
    (hperm : q.Perm q')
    (hdist : q.Pairwise fun a b => a.key ≠ b.key)
    (hpop : popMin q = some (it, rest)) :
    (∀ j ∈ q, j ≠ it → keyLtb it.key j.key = true) ∧
      (∀ j ∈ q, j ≠ it → j.penalty = it.penalty → it.count < j.count) ∧
      (∃ rest', popMin q' = some (it, rest')) := by
  have hmem : it ∈ q := popMin_mem hpop
  have hmin : ∀ j ∈ q, keyLtb j.key it.key = false := popMin_min hpop
  have hsymm : Symmetric fun a b : QueueItem => a.key ≠ b.key :=
    fun _ _ h => Ne.symm h
  have hA : ∀ j ∈ q, j ≠ it → keyLtb it.key j.key = true := by
    intro j hj hne
    have hkeys : j.key ≠ it.key := hdist.forall hsymm hj hmem hne
    rcases keyLtb_total hkeys with h | h
    · rw [hmin j hj] at h
      exact absurd h (by simp)
    · exact h
  refine ⟨hA, ?_, ?_⟩
  · intro j hj hne hpen
    have := hA j hj hne
    simp only [keyLtb, QueueItem.key, Bool.or_eq_true, Bool.and_eq_true,
      decide_eq_true_eq] at this
    omega
  · have hq'ne : q' ≠ [] := by
      intro hq'
      subst hq'
      have : q = [] := List.Perm.eq_nil hperm
      rw [this] at hpop
      simp [popMin] at hpop
    rcases hpop' : popMin q' with _ | p
    · exact absurd (popMin_eq_none.mp hpop') hq'ne
    · rcases p with ⟨it', rest'⟩
      have hmem' : it' ∈ q := hperm.mem_iff.mpr (popMin_mem hpop')
      by_cases hne : it' = it
      · subst hne
        exact ⟨rest', rfl⟩
      · have h1 : keyLtb it.key it'.key = true := hA it' hmem' hne
        have h2 : keyLtb it.key it'.key = false :=
          popMin_min hpop' it (hperm.mem_iff.mp hmem)
        rw [h1] at h2
        exact absurd h2 (by simp)

/-- Witness for C2: a two-entry frontier with equal penalties, in two
different internal arrangements; the earlier-inserted entry (count 0) is
popped from both. -/
theorem frontier_pop_deterministic_tiebreak_witness :
    (∀ j ∈ [(⟨5, 1, .root ⟨[], 0, 0, [], false, false⟩ false⟩ : QueueItem),
            ⟨5, 0, .root ⟨[], 0, 0, [], false, false⟩ false⟩],
        j ≠ ⟨5, 0, .root ⟨[], 0, 0, [], false, false⟩ false⟩ →
        keyLtb (5, 0) j.key = true) ∧
      (∀ j ∈ [(⟨5, 1, .root ⟨[], 0, 0, [], false, false⟩ false⟩ : QueueItem),
              ⟨5, 0, .root ⟨[], 0, 0, [], false, false⟩ false⟩],
          j ≠ ⟨5, 0, .root ⟨[], 0, 0, [], false, false⟩ false⟩ →
          j.penalty = 5 → 0 < j.count) ∧
      (∃ rest', popMin [(⟨5, 0, .root ⟨[], 0, 0, [], false, false⟩ false⟩ : QueueItem),
          ⟨5, 1, .root ⟨[], 0, 0, [], false, false⟩ false⟩] =
        some (⟨5, 0, .root ⟨[], 0, 0, [], false, false⟩ false⟩, rest')) :=
  frontier_pop_deterministic_tiebreak
    [⟨5, 1, .root ⟨[], 0, 0, [], false, false⟩ false⟩,
      ⟨5, 0, .root ⟨[], 0, 0, [], false, false⟩ false⟩]
    [⟨5, 0, .root ⟨[], 0, 0, [], false, false⟩ false⟩,
      ⟨5, 1, .root ⟨[], 0, 0, [], false, false⟩ false⟩]
    ⟨5, 0, .root ⟨[], 0, 0, [], false, false⟩ false⟩
    [⟨5, 1, .root ⟨[], 0, 0, [], false, false⟩ false⟩]
    (by decide) (by decide) (by decide)

/-- C3: the two validity guards of `_AddNextStateToQueue`.  For any node
of the search graph: a successor is never enqueued on the "no newline"
edge when the state's `MustSplit()` holds, and never enqueued on the
"newline" edge when `CanSplit(mustSplit)` is false; in both cases the
count is returned unchanged and the frontier is untouched. -/
theorem addNextStateToQueue_guards (penalty : Nat) (node : StateNode)
    (count : Nat) (pQueue : List QueueItem) :
    (node.state.MustSplit = true →
      AddNextStateToQueue penalty node false count pQueue = (count, pQueue)) ∧
      (node.state.CanSplit node.state.MustSplit = false →
        AddNextStateToQueue penalty node true count pQueue = (count, pQueue)) := by
  constructor <;> intro h <;> simp [AddNextStateToQueue, h]

/-- Witness for C3: a node whose next token both must not stay and cannot
split; neither edge pushes anything. -/
theorem addNextStateToQueue_guards_witness :
    (StateNode.root ⟨[{ must_split := true, can_split := false }], 0, 0, [],
        false, false⟩ false).state.MustSplit = true ∧
      AddNextStateToQueue 7 (.root ⟨[{ must_split := true, can_split := false }],
        0, 0, [], false, false⟩ false) false 3 [] = (3, []) ∧
      (StateNode.root ⟨[{ must_split := true, can_split := false }], 0, 0, [],
          false, false⟩ false).state.CanSplit
        (StateNode.root ⟨[{ must_split := true, can_split := false }], 0, 0, [],
            false, false⟩ false).state.MustSplit = false ∧
      AddNextStateToQueue 7 (.root ⟨[{ must_split := true, can_split := false }],
        0, 0, [], false, false⟩ false) true 3 [] = (3, []) :=
  ⟨by decide,
    (addNextStateToQueue_guards 7 _ 3 []).1 (by decide),
    by decide,
    (addNextStateToQueue_guards 7 _ 3 []).2 (by decide)⟩

/-- Counterexample for C4.  The claim says the relaxed deduplication key
ignores exactly the trailing-flag component and still compares the
indent/bracket stack.  The code's relaxed key does the opposite: with
`ignore_stack_for_comparison` set, two states that differ only in their
stacks compare equal (first pair), while two states that differ only in
the trailing flag still compare unequal (second pair); the claim's
relaxed key decides both pairs the other way. -/
theorem stateEq_relaxed_counterexample :
    stateEq ⟨[], 3, 7, [0], false, true⟩ ⟨[], 3, 7, [1], false, true⟩ = true ∧
      stateEqClaimRelaxed ⟨[], 3, 7, [0], false, true⟩
        ⟨[], 3, 7, [1], false, true⟩ = false ∧
      stateEq ⟨[], 3, 7, [0], false, true⟩ ⟨[], 3, 7, [0], true, true⟩ = false ∧
      stateEqClaimRelaxed ⟨[], 3, 7, [0], false, true⟩
        ⟨[], 3, 7, [0], true, true⟩ = true := by
  decide

/-- C4 as amended: once the examined-node counter exceeds the fixed
threshold 10000, `_AnalyzeSolutionSpace` sets the popped state's
`ignore_stack_for_comparison` flag (and leaves the state untouched at or
below the threshold); for a state with that flag, the deduplication key
ignores exactly the indent/bracket-stack component, while cursor
position, column and the trailing-flag component are still compared. -/
theorem relaxation_ignores_stack (count : Nat) (st a b : FormatDecisionState) :
    (10000 < count → relaxIfOverThreshold count st =
        { st with ignoreStackForComparison := true }) ∧
      (count ≤ 10000 → relaxIfOverThreshold count st = st) ∧
      (a.ignoreStackForComparison = true →
        stateEq a b = (a.nextIdx == b.nextIdx && a.column == b.column &&
          a.trailingComment == b.trailingComment)) := by
  refine ⟨fun h => ?_, fun h => ?_, fun h => ?_⟩
  · simp [relaxIfOverThreshold, h]
  · simp [relaxIfOverThreshold, Nat.not_lt.mpr h]
  · simp [stateEq, h]

/-- Witness for the amended C4 at concrete counts and states. -/
theorem relaxation_ignores_stack_witness :
    relaxIfOverThreshold 10001 ⟨[], 3, 7, [0], false, false⟩ =
        ⟨[], 3, 7, [0], false, true⟩ ∧
      relaxIfOverThreshold 10000 ⟨[], 3, 7, [0], false, false⟩ =
        ⟨[], 3, 7, [0], false, false⟩ ∧
      stateEq ⟨[], 3, 7, [0], false, true⟩ ⟨[], 3, 7, [5], false, false⟩ =
        ((3 : Nat) == 3 && (7 : Nat) == 7 && false == false) :=
  ⟨(relaxation_ignores_stack 10001 _ ⟨[], 0, 0, [], false, false⟩
      ⟨[], 0, 0, [], false, false⟩).1 (by decide),
    (relaxation_ignores_stack 10000 _ ⟨[], 0, 0, [], false, false⟩
      ⟨[], 0, 0, [], false, false⟩).2.1 (by decide),
    (relaxation_ignores_stack 0 ⟨[], 0, 0, [], false, false⟩
      ⟨[], 3, 7, [0], false, true⟩ ⟨[], 3, 7, [5], false, false⟩).2.2 (by decide)⟩

/-- The two per-line exemption tests of `Reformat` whose internals are
regular-expression and style-pattern matching
(`_LineContainsPylintDisableLineTooLong`, reformatter.py:232-237, and
`_LineContainsI18n`, reformatter.py:202-229).  They are carried as
opaque-to-the-claims boolean predicates on the line. -/
structure ReformatEnv where
  pylintDisableLineTooLong : UwLine → Bool
  i18n : UwLine → Bool

/-- The initial decision state `Reformat` builds for a line
(reformatter.py:60-61): `FormatDecisionState(uwline, indent_amt)`
followed by `MoveStateToNextToken()`. -/
def initialLineState (cfg : StyleConfig) (L : UwLine) : FormatDecisionState :=
  FormatDecisionState.MoveStateToNextToken
    { tokens := L.tokens, nextIdx := 0, column := cfg.indentWidth * L.depth,
      stack := [cfg.indentWidth * L.depth], trailingComment := false,
      ignoreStackForComparison := false }

/-- Which of the five emission paths of `Reformat`'s per-line dispatch
(reformatter.py:76-101) a line takes. -/
inductive LineEmit where
  | retainBoth
  | retainVerticalOnly
  | singleLine
  | solved
  | failsafe
deriving DecidableEq

/-- The source actions each emission path performs. -/
inductive EmitAction where
  | initFreshState
  | retainHorizontalSpacing
  | retainRequiredVerticalSpacing
  | emitLineUnformatted
  | addAllTokensNoNewline
  | reconstructPath
deriving DecidableEq

/-- The sequence of calls `Reformat` makes on each path:
`retainBoth` is lines 76-79 (`_RetainHorizontalSpacing`,
`_RetainRequiredVerticalSpacing`, `_EmitLineUnformatted`),
`retainVerticalOnly` is lines 81-85, `singleLine` is lines 87-91 (the
`AddTokenToState(newline=False)` loop), `solved` is the replay of the
winning path, and `failsafe` is lines 93-101: a fresh
`FormatDecisionState` is re-initialized, then the original horizontal and
required vertical spacing are retained and the line is emitted
unformatted. -/
def lineActions : LineEmit → List EmitAction
  | .retainBoth => [.retainHorizontalSpacing, .retainRequiredVerticalSpacing,
      .emitLineUnformatted]
  | .retainVerticalOnly => [.retainRequiredVerticalSpacing, .emitLineUnformatted]
  | .singleLine => [.addAllTokensNoNewline]
  | .solved => [.reconstructPath]
  | .failsafe => [.initFreshState, .retainHorizontalSpacing,
      .retainRequiredVerticalSpacing, .emitLineUnformatted]

/-- The per-line dispatch of `Reformat` (reformatter.py:76-101),
parameterized over the solution-space search so that independence from
it can be stated: disabled or continuation-marker lines retain both
spacings; pylint-line-too-long or i18n lines retain vertical spacing
only; lines passing the fast path with no `must_split` token are placed
on a single line; otherwise the search runs and its failure selects the
failsafe path. -/
def FormatLineEmitWith (search : FormatDecisionState → Bool)
    (cfg : StyleConfig) (env : ReformatEnv) (L : UwLine) : LineEmit :=
  if L.disable || LineHasContinuationMarkers L then .retainBoth
  else if env.pylintDisableLineTooLong L || env.i18n L then .retainVerticalOnly
  else if CanPlaceOnSingleLine cfg L && !(L.tokens.any fun t => t.must_split) then
    .singleLine
  else if search (initialLineState cfg L) then .solved
  else .failsafe

/-- The dispatch with the real `_AnalyzeSolutionSpace` plugged in. -/
def FormatLineEmit (cfg : StyleConfig) (env : ReformatEnv) (L : UwLine) :
    LineEmit :=
  FormatLineEmitWith AnalyzeSolutionSpace cfg env L

/-- The emission paths `Reformat`'s main loop takes over a whole list of
lines, in order; the loop never aborts, so every line contributes one
entry. -/
def ReformatEmits (cfg : StyleConfig) (env : ReformatEnv)
    (uwlines : List UwLine) : List LineEmit :=
  uwlines.map (FormatLineEmit cfg env)

/-- The `while state.next_token: state.AddTokenToState(newline=False,
dry_run=False)` loop of the single-line fast path (reformatter.py:90-91),
recorded as the list of newline decisions it commits; driven by fuel,
which `EmitAllNoNewline` instantiates with the line length. -/
def EmitAllNoNewlineGo : Nat → FormatDecisionState → List Bool
  | 0, _ => []
  | fuel + 1, st =>
    match st.nextToken with
    | none => []
    | some _ => false :: EmitAllNoNewlineGo fuel (st.AddTokenToState false false false).2

/-- The newline decisions of the single-line fast-path loop. -/
def EmitAllNoNewline (st : FormatDecisionState) : List Bool :=
  EmitAllNoNewlineGo st.tokens.length st

theorem addTokenToState_tokens (st : FormatDecisionState) (nl dr ms : Bool) :
    (st.AddTokenToState nl dr ms).2.tokens = st.tokens := by
  unfold FormatDecisionState.AddTokenToState
  rcases h : st.nextToken with _ | t <;> simp

theorem addTokenToState_nextIdx (st : FormatDecisionState) (nl dr ms : Bool)
    (t : FormatToken) (h : st.nextToken = some t) :
    (st.AddTokenToState nl dr ms).2.nextIdx = st.nextIdx + 1 := by
  unfold FormatDecisionState.AddTokenToState
  rw [h]

theorem emitAllNoNewlineGo_replicate :
    ∀ (fuel : Nat) (st : FormatDecisionState),
      st.tokens.length - st.nextIdx ≤ fuel →
      EmitAllNoNewlineGo fuel st =
        List.replicate (st.tokens.length - st.nextIdx) false := by
  intro fuel
  induction fuel with
  | zero =>
    intro st h
    simp only [Nat.le_zero] at h
    simp [EmitAllNoNewlineGo, h]
  | succ fuel ih =>
    intro st h
    rcases hn : st.nextToken with _ | t
    · have : st.tokens.length ≤ st.nextIdx := by
        have := hn
        unfold FormatDecisionState.nextToken at this
        simpa [List.getElem?_eq_none_iff] using this
      simp [EmitAllNoNewlineGo, hn, Nat.sub_eq_zero_of_le this]
    · have hlt : st.nextIdx < st.tokens.length := by
        have := hn
        unfold FormatDecisionState.nextToken at this
        exact (List.getElem?_eq_some_iff.mp this).1
      have hstep := addTokenToState_nextIdx st false false false t hn
      have htoks := addTokenToState_tokens st false false false
      simp only [EmitAllNoNewlineGo, hn]
      rw [ih _ (by rw [hstep, htoks]; omega), hstep, htoks]
      have : st.tokens.length - st.nextIdx =
          (st.tokens.length - (st.nextIdx + 1)) + 1 := by omega
      rw [this, List.replicate_succ]

/-- C1: when the solution-space search fails on a line (its frontier
empties before a terminal state, so `_AnalyzeSolutionSpace` returns
false), `Reformat` does not abort: the line takes the failsafe path —
re-initializing a fresh `FormatDecisionState` for the line and emitting
it with its original horizontal and required vertical spacing preserved —
the remaining lines are still processed, and every line of the input
contributes to the result, which `_FormatFinalLines` always turns into a
string. -/
theorem reformat_search_failure_failsafe (cfg : StyleConfig) (env : ReformatEnv)
    (L : UwLine) (rest : List UwLine)
    (hfail : AnalyzeSolutionSpace (initialLineState cfg L) = false)
    (hdis : L.disable = false)
    (hcont : LineHasContinuationMarkers L = false)
    (hpyl : env.pylintDisableLineTooLong L = false)
    (hi18n : env.i18n L = false)
    (hfast : (CanPlaceOnSingleLine cfg L &&
      !(L.tokens.any fun t => t.must_split)) = false) :
    FormatLineEmit cfg env L = .failsafe ∧
      lineActions (FormatLineEmit cfg env L) =
        [.initFreshState, .retainHorizontalSpacing,
          .retainRequiredVerticalSpacing, .emitLineUnformatted] ∧
      ReformatEmits cfg env (L :: rest) =
        LineEmit.failsafe :: ReformatEmits cfg env rest ∧
      (ReformatEmits cfg env (L :: rest)).length = rest.length + 1 := by
  have hemit : FormatLineEmit cfg env L = .failsafe := by
    unfold FormatLineEmit FormatLineEmitWith
    simp [hdis, hcont, hpyl, hi18n, hfast, hfail]
  refine ⟨hemit, by rw [hemit]; rfl, ?_, ?_⟩
  · unfold ReformatEmits
    rw [List.map_cons, hemit]
  · simp [ReformatEmits]

/-- Witness for C1: a line whose second token is marked both `must_split`
and `can_split = false`, so neither successor can be enqueued and the
frontier empties immediately. -/
theorem reformat_search_failure_failsafe_witness :
    AnalyzeSolutionSpace (initialLineState {}
        (UwLine.mk [{ value := "x".toList },
          { value := "y".toList, must_split := true, can_split := false }]
          0 false)) = false ∧
      FormatLineEmit {} ⟨fun _ => false, fun _ => false⟩
        (UwLine.mk [{ value := "x".toList },
          { value := "y".toList, must_split := true, can_split := false }]
          0 false) = .failsafe ∧
      ReformatEmits {} ⟨fun _ => false, fun _ => false⟩
        [UwLine.mk [{ value := "x".toList },
          { value := "y".toList, must_split := true, can_split := false }]
          0 false] = [LineEmit.failsafe] :=
  ⟨by decide,
    (reformat_search_failure_failsafe {} ⟨fun _ => false, fun _ => false⟩ _ []
      (by decide) (by decide) (by decide) rfl rfl (by decide)).1,
    by
      have h := (reformat_search_failure_failsafe {} ⟨fun _ => false, fun _ => false⟩
        (UwLine.mk [{ value := "x".toList },
          { value := "y".toList, must_split := true, can_split := false }]
          0 false) []
        (by decide) (by decide) (by decide) rfl rfl (by decide)).2.2.1
      simpa [ReformatEmits] using h⟩

/-- C5: a line that is not disabled, has no continuation markers, is not
pylint- or i18n-exempt, passes `_CanPlaceOnSingleLine` and has no
`must_split` token takes the single-line path: every token is placed by
`AddTokenToState(newline=False, dry_run=False)` — the committed newline
decisions are all `false` — and the solution-space search is never
invoked (the dispatch result is the same for every search function). -/
theorem reformat_single_line_fast_path (cfg : StyleConfig) (env : ReformatEnv)
    (L : UwLine) (search1 search2 : FormatDecisionState → Bool)
    (hdis : L.disable = false)
    (hcont : LineHasContinuationMarkers L = false)
    (hpyl : env.pylintDisableLineTooLong L = false)
    (hi18n : env.i18n L = false)
    (hfit : CanPlaceOnSingleLine cfg L = true)
    (hms : (L.tokens.any fun t => t.must_split) = false) :
    FormatLineEmitWith search1 cfg env L = .singleLine ∧
      FormatLineEmitWith search1 cfg env L = FormatLineEmitWith search2 cfg env L ∧
      EmitAllNoNewline (initialLineState cfg L) =
        List.replicate (L.tokens.length - 1) false := by
  have h1 : FormatLineEmitWith search1 cfg env L = .singleLine := by
    unfold FormatLineEmitWith
    simp [hdis, hcont, hpyl, hi18n, hfit, hms]
  have h2 : FormatLineEmitWith search2 cfg env L = .singleLine := by
    unfold FormatLineEmitWith
    simp [hdis, hcont, hpyl, hi18n, hfit, hms]
  refine ⟨h1, h1.trans h2.symm, ?_⟩
  unfold EmitAllNoNewline
  rw [emitAllNoNewlineGo_replicate _ _ (by simp [initialLineState,
    FormatDecisionState.MoveStateToNextToken])]
  simp [initialLineState, FormatDecisionState.MoveStateToNextToken]

/-- Witness for C5: a short assignment-like line takes the fast path and
commits two no-newline decisions. -/
theorem reformat_single_line_fast_path_witness :
    FormatLineEmitWith (fun _ => false) {} ⟨fun _ => false, fun _ => false⟩
        (UwLine.mk [{ value := "x".toList, total_length := 5 },
          { value := "=".toList, total_length := 3 },
          { value := "1".toList, total_length := 1 }] 0 false) = .singleLine ∧
      EmitAllNoNewline (initialLineState {}
        (UwLine.mk [{ value := "x".toList, total_length := 5 },
          { value := "=".toList, total_length := 3 },
          { value := "1".toList, total_length := 1 }] 0 false)) =
        List.replicate 2 false :=
  ⟨(reformat_single_line_fast_path {} ⟨fun _ => false, fun _ => false⟩ _
      (fun _ => false) (fun _ => true)
      (by decide) (by decide) rfl rfl (by decide) (by decide)).1,
    (reformat_single_line_fast_path {} ⟨fun _ => false, fun _ => false⟩ _
      (fun _ => false) (fun _ => true)
      (by decide) (by decide) rfl rfl (by decide) (by decide)).2.2⟩

/-- Python `s.rfind('\n')` followed by `s[i+1:]`: the text after the last
newline of `l`, or `none` when `l` has no newline. -/
def splitAtLastNewline (l : List Char) : Option (List Char) :=
  l.foldl (fun acc c => if c = '\n' then some [] else acc.map fun s => s ++ [c])
    none

/-- Accumulator of the per-line scan of `_AlignTrailingComments`
(reformatter.py:305-327): the running `max_line_length`, the current
physical line's rendered `line_content`, and the `pc_line_lengths`
collected so far. -/
structure AlignAcc where
  maxLen : Nat
  content : List Char
  pcs : List Nat
deriving DecidableEq

/-- One token of the per-line scan: when the token's formatted whitespace
contains a newline, fold the finished physical line's length into the
maximum and restart the content from the text after that newline; then a
comment token records the pre-comment content length, and any other token
appends its whitespace and value to the content. -/
def alignStep (acc : AlignAcc) (tok : FormatToken) : AlignAcc :=
  let res := match splitAtLastNewline tok.fmtWs with
    | some suffix => (max acc.maxLen acc.content.length, ([] : List Char), suffix)
    | none => (acc.maxLen, acc.content, tok.fmtWs)
  if tok.is_comment then
    { maxLen := res.1, content := res.2.1, pcs := acc.pcs ++ [res.2.1.length] }
  else
    { maxLen := res.1, content := res.2.1 ++ res.2.2 ++ tok.value, pcs := acc.pcs }

/-- The scan of one logical line of the comment block: returns the
updated `max_line_length` (folding in `max(pc_line_lengths)` when the
line has comments, reformatter.py:324-325) and the line's
`pc_line_lengths`. -/
def processAlignLine (maxLen : Nat) (toks : List FormatToken) :
    Nat × List Nat :=
  let acc := toks.foldl alignStep { maxLen := maxLen, content := [], pcs := [] }
  (if acc.pcs.isEmpty then acc.maxLen
   else max acc.maxLen (acc.pcs.foldl max 0), acc.pcs)

/-- The whole-block scan of `_AlignTrailingComments`: fold the per-line
scan over the lines of one maximal comment block, collecting every
line's pre-comment lengths. -/
def alignRun (lines : List (List FormatToken)) : Nat × List (List Nat) :=
  lines.foldl
    (fun st toks =>
      let r := processAlignLine st.1 toks
      (r.1, st.2 ++ [r.2]))
    (0, [])

/-- The aligned-column choice of `_AlignTrailingComments`
(reformatter.py:329-339): after `max_line_length += 2`, the first
configured candidate column strictly greater than that value, or the
value itself when no candidate qualifies. -/
def alignRunColumn (candidates : List Nat) (lines : List (List FormatToken)) :
    Nat :=
  let m2 := (alignRun lines).1 + 2
  match candidates.find? fun c => decide (m2 < c) with
  | some c => c
  | none => m2

/-- The column-selection rule exactly as claim C7 states it: the first
configured candidate strictly greater than the maximum pre-comment
content length itself, or that maximum plus 2 when no candidate
qualifies. -/
def alignedColClaim (candidates : List Nat) (maxPre : Nat) : Nat :=
  match candidates.find? fun c => decide (maxPre < c) with
  | some c => c
  | none => maxPre + 2

/-- The column-selection rule as the code actually computes it, phrased
over the block's maximum pre-comment content length: the first candidate
strictly greater than the maximum plus 2, or the maximum plus 2. -/
def alignedColAmended (candidates : List Nat) (maxPre : Nat) : Nat :=
  match candidates.find? fun c => decide (maxPre + 2 < c) with
  | some c => c
  | none => maxPre + 2

/-- Where a comment starts after the rewrite (reformatter.py:357-358):
the pre-comment content of length `pcLen` is followed by
`aligned_col - pcLen - 1` spaces, so the comment's first character sits
at zero-based column `pcLen + (alignedCol - pcLen - 1)`. -/
def commentAlignedStart (alignedCol pcLen : Nat) : Nat :=
  pcLen + (alignedCol - pcLen - 1)

/-- The three lines of Scenario A — `x = 1  # a`, `yy = 2  # bb`,
`zzz = 3  # ccc` — as token runs with their formatted whitespace. -/
def scenarioARun : List (List FormatToken) :=
  [[{ value := "x".toList, fmtWs := "\n".toList },
    { value := "=".toList, fmtWs := " ".toList },
    { value := "1".toList, fmtWs := " ".toList },
    { value := "# a".toList, fmtWs := "  ".toList, is_comment := true }],
   [{ value := "yy".toList, fmtWs := "\n".toList },
    { value := "=".toList, fmtWs := " ".toList },
    { value := "2".toList, fmtWs := " ".toList },
    { value := "# bb".toList, fmtWs := "  ".toList, is_comment := true }],
   [{ value := "zzz".toList, fmtWs := "\n".toList },
    { value := "=".toList, fmtWs := " ".toList },
    { value := "3".toList, fmtWs := " ".toList },
    { value := "# ccc".toList, fmtWs := "  ".toList, is_comment := true }]]

/-- Counterexample for C7.  On the Scenario A block the maximum
pre-comment content length is 7 (`zzz = 3`), and with candidate columns
`[8]` the claim's rule ("first configured candidate strictly greater
than the maximum") picks 8, but the code compares candidates against the
maximum plus 2 (`max_line_length += 2` happens before the search), so it
rejects 8 (8 is not greater than 9) and falls back to 9. -/
theorem alignTrailingComments_column_counterexample :
    (alignRun scenarioARun).1 = 7 ∧
      alignRunColumn [8] scenarioARun = 9 ∧
      alignedColClaim [8] 7 = 8 ∧
      alignRunColumn [8] scenarioARun ≠
        alignedColClaim [8] (alignRun scenarioARun).1 := by
  decide

/-- C7 as amended: the chosen alignment column is the first configured
candidate strictly greater than the block's maximum pre-comment content
length plus 2, or that maximum plus 2 when no candidate qualifies.
Scenario A holds as claimed: with candidates `[10, 20]` and maximum
pre-comment length 7 (the per-line lengths are 5, 6 and 7), since
7 + 2 < 10 the chosen column is 10, and every rewritten comment starts
at zero-based column 9, i.e. at column 10. -/
theorem alignTrailingComments_column_amended (candidates : List Nat)
    (lines : List (List FormatToken)) :
    alignRunColumn candidates lines =
        alignedColAmended candidates (alignRun lines).1 ∧
      alignRunColumn [10, 20] scenarioARun = 10 ∧
      (alignRun scenarioARun).2 = [[5], [6], [7]] ∧
      ((commentAlignedStart 10 5 = 9) ∧ (commentAlignedStart 10 6 = 9) ∧
        (commentAlignedStart 10 7 = 9)) :=
  ⟨rfl, by decide, by decide, by decide, by decide, by decide⟩

/-- Python `needle in hay` for strings: substring containment. -/
def containsSub (needle hay : List Char) : Bool :=
  (List.range (hay.length + 1)).any fun i => needle.isPrefixOf (hay.drop i)

/-- Python `s.startswith(c)` for a single character. -/
def startsWithChar (l : List Char) (c : Char) : Bool :=
  match l with
  | [] => false
  | x :: _ => x = c

/-- The pseudo-parenthesis branch of `_FormatFinalLines`
(reformatter.py:403-408): a pseudo paren emits a single space when the
following token's original whitespace starts with neither a newline nor
a space, and either the preceding token is a colon or the following
token's value is not one of the closers `,}])` (a Python substring
test).  The source never reaches this branch with a pseudo paren at the
edge of the stream; a missing neighbour contributes nothing here. -/
def pseudoParenPiece (toks : List FormatToken) (i : Nat) : List Char :=
  match toks[i + 1]? with
  | none => []
  | some nxt =>
    if !(startsWithChar nxt.origWs '\n') && !(startsWithChar nxt.origWs ' ') then
      let prevColon := match i with
        | 0 => false
        | j + 1 =>
          match toks[j]? with
          | some p => p.value == [':']
          | none => false
      if prevColon || !(containsSub nxt.value [',', '\x7d', ']', ')']) then [' ']
      else []
    else []

/-- The contribution of the `i`-th token of a line to the composed text
(reformatter.py:399-408): a regular token emits its formatted whitespace
followed by its value; a pseudo parenthesis emits at most a space. -/
def tokPiece (toks : List FormatToken) (i : Nat) : List Char :=
  match toks[i]? with
  | none => []
  | some tok =>
    if tok.is_pseudo_paren = false then tok.fmtWs ++ tok.value
    else pseudoParenPiece toks i

/-- The string one line contributes to the composed output: the
concatenation of its tokens' pieces. -/
def lineStr (L : UwLine) : List Char :=
  (List.range L.tokens.length).foldl (fun acc i => acc ++ tokPiece L.tokens i) []

/-- Modelled from the spec: `verifier.VerifyCode`, which is not among the
sources under verification, re-parses a piece of composed text and
raises an error when it fails to parse.  It is modelled as an arbitrary
boolean predicate on text, passed in as a parameter. -/
def VerifyOracle : Type := List Char → Bool

/-- The loop of `_FormatFinalLines` (reformatter.py:394-414) with its
accumulated output: append each line's string and, when `verify` is set,
verify that line (`verifier.VerifyCode(formatted_code[-1])`), the raised
error propagating as `Except.error`; at the end, return the joined text
plus one final newline. -/
def FormatFinalLinesGo (verify : Bool) (ok : VerifyOracle)
    (lines : List UwLine) (acc : List Char) : Except Unit (List Char) :=
  match lines with
  | [] => .ok (acc ++ ['\n'])
  | L :: rest =>
    if verify && !(ok (lineStr L)) then .error ()
    else FormatFinalLinesGo verify ok rest (acc ++ lineStr L)

/-- Source `_FormatFinalLines`: compose the final output from the
finalized lines, verifying each composed line when requested. -/
def FormatFinalLines (verify : Bool) (ok : VerifyOracle)
    (lines : List UwLine) : Except Unit (List Char) :=
  FormatFinalLinesGo verify ok lines []

/-- The text `_FormatFinalLines` composes when no verification error
interrupts it: every line's string in order, plus one final newline. -/
def composedText (lines : List UwLine) : List Char :=
  (lines.foldl (fun a L => a ++ lineStr L) []) ++ ['\n']

theorem formatFinalLinesGo_ok (verify : Bool) (ok : VerifyOracle) :
    ∀ (lines : List UwLine) (acc t : List Char),
      FormatFinalLinesGo verify ok lines acc = .ok t →
      t = (lines.foldl (fun a L => a ++ lineStr L) acc) ++ ['\n'] := by
  intro lines
  induction lines with
  | nil =>
    intro acc t h
    simp only [FormatFinalLinesGo, Except.ok.injEq] at h
    simp [← h]
  | cons L rest ih =>
    intro acc t h
    simp only [FormatFinalLinesGo] at h
    by_cases hv : (verify && !(ok (lineStr L))) = true
    · rw [if_pos hv] at h
      exact absurd h (by simp)
    · rw [if_neg hv] at h
      simpa using ih _ _ h

theorem formatFinalLinesGo_noverify (ok : VerifyOracle) :
    ∀ (lines : List UwLine) (acc : List Char),
      FormatFinalLinesGo false ok lines acc =
        .ok ((lines.foldl (fun a L => a ++ lineStr L) acc) ++ ['\n']) := by
  intro lines
  induction lines with
  | nil => intro acc; simp [FormatFinalLinesGo]
  | cons L rest ih => intro acc; simpa [FormatFinalLinesGo] using ih _

theorem formatFinalLinesGo_all_pass (ok : VerifyOracle) :
    ∀ (lines : List UwLine) (acc : List Char),
      (∀ L ∈ lines, ok (lineStr L) = true) →
      FormatFinalLinesGo true ok lines acc =
        .ok ((lines.foldl (fun a L => a ++ lineStr L) acc) ++ ['\n']) := by
  intro lines
  induction lines with
  | nil => intro acc _; simp [FormatFinalLinesGo]
  | cons L rest ih =>
    intro acc hall
    have hL : ok (lineStr L) = true := hall L (List.mem_cons_self L rest)
    simp only [FormatFinalLinesGo, hL]
    simpa using ih _ fun M hM => hall M (List.mem_cons_of_mem L hM)

theorem formatFinalLinesGo_fail (ok : VerifyOracle) :
    ∀ (lines : List UwLine) (acc : List Char),
      (∃ L ∈ lines, ok (lineStr L) = false) →
      FormatFinalLinesGo true ok lines acc = .error () := by
  intro lines
  induction lines with
  | nil => intro acc h; simp at h
  | cons L rest ih =>
    intro acc h
    by_cases hL : ok (lineStr L) = true
    · rcases h with ⟨M, hM, hMf⟩
      rcases List.mem_cons.mp hM with hM | hM
      · subst hM; rw [hL] at hMf; exact absurd hMf (by simp)
      · simp only [FormatFinalLinesGo, hL]
        simpa using ih _ ⟨M, hM, hMf⟩
    · have hL' : ok (lineStr L) = false := by simpa using hL
      simp [FormatFinalLinesGo, hL']

/-- Counterexample for C8.  The claim ties the verification failure to a
re-parse of the fully composed text, but the code verifies each line's
string individually as it is appended (reformatter.py:411-412) and never
re-parses the composed whole.  With an oracle accepting exactly the
texts of length at most 3, both lines `ab` and `cd` pass, so
`_FormatFinalLines` returns the composed text `abcd\n` even though that
composed text itself fails the oracle. -/
theorem formatFinalLines_composed_counterexample :
    FormatFinalLines true (fun s => decide (s.length ≤ 3))
        [UwLine.mk [{ value := "ab".toList }] 0 false,
          UwLine.mk [{ value := "cd".toList }] 0 false] =
      .ok "abcd\n".toList ∧
      (fun s : List Char => decide (s.length ≤ 3)) "abcd\n".toList = false :=
  ⟨rfl, rfl⟩

/-- C8 as amended: when `verify` is false, no verification is attempted
and the composed text is always returned, whatever the verification
oracle; when `verify` is true, each composed line is individually
verified, the text is returned when every line passes, and a
verification error propagates to the caller instead of the text as soon
as some line fails to re-parse. -/
theorem formatFinalLines_verify (ok : VerifyOracle) (lines : List UwLine) :
    FormatFinalLines false ok lines = .ok (composedText lines) ∧
      ((∀ L ∈ lines, ok (lineStr L) = true) →
        FormatFinalLines true ok lines = .ok (composedText lines)) ∧
      ((∃ L ∈ lines, ok (lineStr L) = false) →
        FormatFinalLines true ok lines = .error ()) :=
  ⟨formatFinalLinesGo_noverify ok lines [],
    fun h => formatFinalLinesGo_all_pass ok lines [] h,
    fun h => formatFinalLinesGo_fail ok lines [] h⟩

/-- Witness for the amended C8: a two-line document under an oracle that
fails on the second line; without verification the text is returned, and
with verification the error propagates. -/
theorem formatFinalLines_verify_witness :
    FormatFinalLines false (fun s => decide (s.length ≤ 1))
        [UwLine.mk [{ value := "x".toList }] 0 false,
          UwLine.mk [{ value := "yz".toList }] 0 false] =
      .ok (composedText [UwLine.mk [{ value := "x".toList }] 0 false,
        UwLine.mk [{ value := "yz".toList }] 0 false]) ∧
      FormatFinalLines true (fun s => decide (s.length ≤ 1))
        [UwLine.mk [{ value := "x".toList }] 0 false,
          UwLine.mk [{ value := "yz".toList }] 0 false] = .error () :=
  ⟨(formatFinalLines_verify (fun s => decide (s.length ≤ 1))
      [UwLine.mk [{ value := "x".toList }] 0 false,
        UwLine.mk [{ value := "yz".toList }] 0 false]).1,
    (formatFinalLines_verify (fun s => decide (s.length ≤ 1))
      [UwLine.mk [{ value := "x".toList }] 0 false,
        UwLine.mk [{ value := "yz".toList }] 0 false]).2.2
      ⟨UwLine.mk [{ value := "yz".toList }] 0 false, by decide, by decide⟩⟩

/-- C9: whenever `_FormatFinalLines` returns a text, that text ends in
exactly one newline: its last character is `'\n'` and the character
before it, when there is one, is not `'\n'`.  The hypothesis on the last
line states the well-formedness the upstream tokenizer guarantees: a
line's rendered string is nonempty and never ends in a newline (token
values carry no trailing line terminator). -/
theorem formatFinalLines_single_trailing_newline (verify : Bool)
    (ok : VerifyOracle) (lines : List UwLine) (t : List Char)
    (hres : FormatFinalLines verify ok lines = .ok t)
    (hlast : ∀ L, lines.getLast? = some L →
      lineStr L ≠ [] ∧ (lineStr L).getLast? ≠ some '\n') :
    t.getLast? = some '\n' ∧ t.dropLast.getLast? ≠ some '\n' := by
  have ht := formatFinalLinesGo_ok verify ok lines [] t hres
  subst ht
  refine ⟨List.getLast?_concat _, ?_⟩
  rw [List.dropLast_concat]
  rcases List.eq_nil_or_concat lines with hnil | ⟨init, Lst, hcat⟩
  · subst hnil
    simp
  · rw [List.concat_eq_append] at hcat
    subst hcat
    obtain ⟨hne, hnl⟩ := hlast Lst (List.getLast?_concat _)
    rw [List.foldl_append]
    simp only [List.foldl_cons, List.foldl_nil]
    rw [List.getLast?_append_of_ne_nil _ hne]
    exact hnl

/-- Witness for C9: a one-line document; the composed text is `x\n`. -/
theorem formatFinalLines_single_trailing_newline_witness :
    ("x\n".toList.getLast? = some '\n') ∧
      ("x\n".toList.dropLast.getLast? ≠ some '\n') :=
  formatFinalLines_single_trailing_newline false (fun _ => true)
    [UwLine.mk [{ value := "x".toList }] 0 false] "x\n".toList rfl
    (by decide)

end Yapf
